import Mathlib

/-!
Verification of the canboat `dbc-exporter` conversion engine, a shallow
embedding of `src/dbc-exporter/src/dbc_exporter/input/canboat.py`.

Python dictionaries backing the JSON records are modelled as structures whose
optional keys are `Option` fields; an unconditional access to an optional key
is modelled as a fallible operation in the `Except PyErr` monad, mirroring the
`KeyError` / `IndexError` / `ValueError` the interpreter would raise.  Python
`set` objects holding reserved identifiers are modelled as `Finset String`.
Python integer formatting (`f"{n}"`) is modelled by an executable decimal
renderer.  The `cantools` `Signal` back-reference `multiplexer_signal` is
represented by the referenced signal's name.
-/

deriving instance DecidableEq for Except

namespace Canboat

/-- Python runtime exceptions the engine can raise while converting. -/
inductive PyErr where
  | keyError
  | indexError
  | valueError
  deriving DecidableEq

/-- Little-endian base-10 digits of `n`; the explicit fuel keeps the
definition structurally recursive (fuel `n + 1` always suffices, see
`toDigitsRev_eq_digits`). -/
def toDigitsRev : Nat → Nat → List Nat
  | 0, _ => []
  | fuel + 1, n => if n = 0 then [] else n % 10 :: toDigitsRev fuel (n / 10)

/-- Decimal rendering of a natural number, as Python `str` produces it. -/
def natStr (n : Nat) : String :=
  if n = 0 then "0" else ⟨((toDigitsRev (n + 1) n).map Nat.digitChar).reverse⟩

/-- Decimal rendering of a Python integer (possibly negative). -/
def intStr (i : Int) : String :=
  if i < 0 then "-" ++ natStr i.natAbs else natStr i.toNat

/-- Numeric value of a decimal digit character (inverse of `Nat.digitChar`
on digits below 10). -/
def decodeDigit (c : Char) : Nat := c.toNat - 48

/-- Decode a decimal character list back to the number it renders; a left
inverse of the rendering used by `natStr`. -/
def decodeData (l : List Char) : Nat := Nat.ofDigits 10 ((l.map decodeDigit).reverse)

/-- Candidate identifier built by the Python f-string `f"{id_}_{i}"`. -/
def pyFormat (id_ : String) (i : Nat) : String := id_ ++ "_" ++ natStr i

/-- The `while True` loop of `get_unique_id`, searching suffixes `i`, `i+1`, …
with explicit fuel; `reserved.card + 1` steps always reach a free candidate
(pigeonhole, see `exists_fresh_suffix`). -/
def findSuffix (id_ : String) (reserved : Finset String) : Nat → Nat → String
  | 0, i => pyFormat id_ i
  | fuel + 1, i =>
    if pyFormat id_ i ∉ reserved then pyFormat id_ i
    else findSuffix id_ reserved fuel (i + 1)

/-- Model of `get_unique_id(id_, reserved_ids)`: return `id_` unchanged when
it is not yet reserved, otherwise the first free candidate `id__1`, `id__2`, …;
the chosen identifier is added to the reserved set, which is returned as the
second component (the Python function mutates the set in place). -/
def get_unique_id (id_ : String) (reserved_ids : Finset String) : String × Finset String :=
  if id_ ∉ reserved_ids then (id_, insert id_ reserved_ids)
  else (findSuffix id_ reserved_ids (reserved_ids.card + 1) 1,
        insert (findSuffix id_ reserved_ids (reserved_ids.card + 1) 1) reserved_ids)

/-- Normalizing a whole sequence of raw field Ids against one message-scoped
reserved set: each Id is passed through `get_unique_id`, threading the set,
exactly as the successive `Field(...)` constructions do for one message. -/
def normalize_ids : List String → Finset String → List String × Finset String
  | [], reserved => ([], reserved)
  | id_ :: rest, reserved =>
    let p := get_unique_id id_ reserved
    let q := normalize_ids rest p.2
    (p.1 :: q.1, q.2)

/-- One canboat JSON field record (`FieldDefinition`); keys that the input
schema declares optional are `Option` fields. `EnumValues` is the ordered
list of `{value, name}` pairs. -/
structure FieldD where
  Order : Nat
  Id : String
  Name : String
  Description : Option String := none
  BitLength : Nat
  BitOffset : Nat
  BitStart : Nat
  Units : Option String := none
  Type' : Option String := none
  Resolution : Option Rat := none
  Signed : Option Bool := none
  EnumValues : Option (List (Int × String)) := none
  Match : Option Int := none
  deriving DecidableEq

/-- One canboat JSON PGN record (`PgnDefinition`). -/
structure PgnD where
  PGN : Nat
  Id : String
  Description : String
  Type' : Option String := none
  Length : Nat
  RepeatingFieldsSet1Size : Option Nat := none
  Fields : List FieldD
  deriving DecidableEq

/-- The Python `Field` object built by `Field.__init__`. -/
structure Field where
  order : Nat
  id : String
  name : String
  description : Option String
  bit_length : Nat
  bit_offset : Nat
  bit_start : Nat
  units : Option String
  type' : Option String
  resolution : Rat
  signed : Option Bool
  enum_values : Option (List (Int × String))
  multiplexer : Bool
  multiplexer_ids : Option (List Int)
  deriving DecidableEq

/-- Python dict insertion semantics: an existing key keeps its position and
gets the new value, a new key is appended. -/
def pyDictInsert (m : List (Int × String)) (k : Int) (v : String) : List (Int × String) :=
  if m.any (fun p => p.1 == k) then m.map (fun p => if p.1 == k then (k, v) else p)
  else m ++ [(k, v)]

/-- Python dict built from a sequence of key/value pairs (comprehension
semantics: later pairs override earlier ones in place). -/
def pyDictOfList (l : List (Int × String)) : List (Int × String) :=
  l.foldl (fun m p => pyDictInsert m p.1 p.2) []

/-- Model of `Field.__init__(field_dict, reserved_field_ids)`.  Note the
source reads `field_dict["Signed"]` whenever `"Resolution"` is present
(line `self.signed = field_dict["Signed"] if "Resolution" in field_dict
else None`), which raises `KeyError` when `Signed` is absent. -/
def mkField (field_dict : FieldD) (reserved_field_ids : Finset String) :
    Except PyErr (Field × Finset String) := do
  let p := get_unique_id field_dict.Id reserved_field_ids
  let signed : Option Bool ←
    if field_dict.Resolution.isSome then
      match field_dict.Signed with
      | some b => Except.ok (some b)
      | none => Except.error PyErr.keyError
    else Except.ok none
  Except.ok
    ({ order := field_dict.Order
       id := p.1
       name := field_dict.Name
       description := field_dict.Description
       bit_length := field_dict.BitLength
       bit_offset := field_dict.BitOffset
       bit_start := field_dict.BitStart
       units := field_dict.Units
       type' := field_dict.Type'
       resolution := field_dict.Resolution.getD 1
       signed := signed
       enum_values :=
         if field_dict.Type' = some "Lookup table" then
           match field_dict.EnumValues with
           | some l => some (pyDictOfList l)
           | none => none
         else none
       multiplexer := false
       multiplexer_ids := none }, p.2)

/-- The `Field` value `Field.__init__` produces when it does not raise,
given the unique id chosen for it (see `mkField_ok`). -/
def mkFieldPure (fd : FieldD) (uid : String) : Field :=
  { order := fd.Order
    id := uid
    name := fd.Name
    description := fd.Description
    bit_length := fd.BitLength
    bit_offset := fd.BitOffset
    bit_start := fd.BitStart
    units := fd.Units
    type' := fd.Type'
    resolution := fd.Resolution.getD 1
    signed := if fd.Resolution.isSome then fd.Signed else none
    enum_values :=
      if fd.Type' = some "Lookup table" then
        match fd.EnumValues with
        | some l => some (pyDictOfList l)
        | none => none
      else none
    multiplexer := false
    multiplexer_ids := none }

/-- The `cantools` `Signal` as produced by `_field_to_signal`;
`multiplexer_signal` holds the name of the referenced multiplexer signal. -/
structure Signal where
  name : String
  start : Nat
  length : Nat
  byte_order : String
  is_signed : Option Bool
  scale : Rat
  unit : Option String
  comment : Option String
  choices : Option (List (Int × String))
  is_multiplexer : Bool
  multiplexer_ids : Option (List Int)
  multiplexer_signal : Option String
  deriving DecidableEq

/-- Model of `_field_to_signal(field, multiplexer_signal)`. -/
def _field_to_signal (field : Field) (multiplexer_signal : Option String) : Signal :=
  { name := field.id
    start := field.bit_offset
    length := field.bit_length
    byte_order := "little_endian"
    is_signed := field.signed
    scale := field.resolution
    unit := field.units
    comment := field.description
    choices := field.enum_values
    is_multiplexer := field.multiplexer
    multiplexer_ids := field.multiplexer_ids
    multiplexer_signal := multiplexer_signal }

/-- The `cantools` `Message` as produced by `_pgn_to_message`. -/
structure Message where
  frame_id : Nat
  name : String
  length : Nat
  signals : List Signal
  comment : Option String
  is_extended_frame : Bool
  protocol : String
  deriving DecidableEq

/-- Model of `_pgn_to_frame_id(pgn)`. -/
def _pgn_to_frame_id (pgn : Nat) : Nat :=
  let priority : Nat := 6
  let reserved : Nat := 0
  let data_page := (pgn >>> 16) &&& 1
  let pdu_format := (pgn >>> 8) &&& 255
  let pdu_specific := pgn &&& 255
  let source_address : Nat := 254
  let priority_bits := priority <<< 26
  let reserved_bits := reserved <<< 25
  let data_page_bits := data_page <<< 24
  let pdu_format_bits := pdu_format <<< 16
  let pdu_specific_bits := pdu_specific <<< 8
  let source_address_bits := source_address
  priority_bits ||| reserved_bits ||| data_page_bits ||| pdu_format_bits |||
    pdu_specific_bits ||| source_address_bits

/-- Model of `_pgn_to_message(number, id_, description, length, signals)`;
note the source hard-codes `length=8` in the `Message` it builds. -/
def _pgn_to_message (number : Nat) (id_ : String) (description : String)
    (length : Nat) (signals : List Signal) : Message :=
  { frame_id := _pgn_to_frame_id number
    name := id_
    length := 8
    signals := signals
    comment := some description
    is_extended_frame := true
    protocol := "j1939" }

/-- The synthetic `first_field` dict of `_fast_to_message`. -/
def first_field : FieldD :=
  { Order := 1, Id := "fastPacketSequenceCounter", Name := "Fast packet sequence counter",
    BitLength := 8, BitOffset := 0, BitStart := 0, Type' := some "Integer",
    Signed := some false }

/-- The synthetic `data_field` dict of `_fast_to_message`. -/
def data_field : FieldD :=
  { Order := 1, Id := "fastPacketData", Name := "Fast packet data",
    BitLength := 56, BitOffset := 8, BitStart := 0, Signed := some false }

/-- Model of `_fast_to_message(json_data)`. -/
def _fast_to_message (json_data : PgnD) : Except PyErr Message := do
  let pgn_id := "PGN_" ++ natStr json_data.PGN ++ "_" ++ json_data.Id
  let p1 ← mkField first_field ∅
  let p2 ← mkField data_field p1.2
  Except.ok (_pgn_to_message json_data.PGN pgn_id json_data.Description json_data.Length
    [_field_to_signal p1.1 none, _field_to_signal p2.1 none])

/-- Model of `_validate_data_length(fields, pgn_length)`; `fields[-1]` on an
empty list raises `IndexError`. -/
def _validate_data_length (fields : List FieldD) (pgn_length : Nat) : Except PyErr Bool :=
  match fields.getLast? with
  | none => Except.error PyErr.indexError
  | some last_field =>
    Except.ok (decide (last_field.BitOffset + last_field.BitLength ≤ pgn_length * 8))

/-- Model of `_repeat(signals, repeating_fields)`: a documented no-op that
only emits a warning. -/
def _repeat (signals : List Signal) (_repeating_fields : Nat) : List Signal :=
  signals

/-- The list comprehension building one `Signal` per field of a single-frame
message, threading the message-scoped reserved-Id set. -/
def fields_to_signals : List FieldD → Finset String → Except PyErr (List Signal × Finset String)
  | [], reserved => Except.ok ([], reserved)
  | fd :: rest, reserved => do
    let p ← mkField fd reserved
    let q ← fields_to_signals rest p.2
    Except.ok (_field_to_signal p.1 none :: q.1, q.2)

/-- Model of `_single_to_message(json_data)`. -/
def _single_to_message (json_data : PgnD) : Except PyErr (Option Message) := do
  let pgn_id := "PGN_" ++ natStr json_data.PGN ++ "_" ++ json_data.Id
  let pgn_repeating_fields := json_data.RepeatingFieldsSet1Size.getD 0
  let ok ← _validate_data_length json_data.Fields json_data.Length
  if !ok then Except.ok none
  else do
    let p ← fields_to_signals json_data.Fields ∅
    let pgn_signals := if pgn_repeating_fields ≠ 0 then _repeat p.1 pgn_repeating_fields else p.1
    Except.ok (some (_pgn_to_message json_data.PGN pgn_id json_data.Description
      json_data.Length pgn_signals))

/-- Model of `_json_to_message(json_data)`: ISO groups are skipped, fast
packets (explicit `Type` or `Length > 8`) take the synthetic layout,
everything else falls back to the single-frame path. -/
def _json_to_message (json_data : PgnD) : Except PyErr (Option Message) :=
  if json_data.Type' = some "ISO" then Except.ok none
  else if json_data.Type' = some "Fast" ∨ 8 < json_data.Length then do
    let m ← _fast_to_message json_data
    Except.ok (some m)
  else _single_to_message json_data

/-- Python `variant["Fields"][0]`: `IndexError` on an empty field list. -/
def firstField (variant : PgnD) : Except PyErr FieldD :=
  match variant.Fields with
  | [] => Except.error PyErr.indexError
  | f :: _ => Except.ok f

/-- First loop of `_validate_multiplex_field`: collect the Ids of variants
whose first field has no `Match` value. -/
def collectIgnored : List PgnD → Except PyErr (Finset String)
  | [] => Except.ok ∅
  | variant :: rest => do
    let f0 ← firstField variant
    let s ← collectIgnored rest
    Except.ok (if f0.Match = none then insert variant.Id s else s)

/-- Second loop of `_validate_multiplex_field` over `variants[1:]`, with the
running set of seen `Match` values. -/
def checkVariants (ref_field0 : FieldD) (ignore_variants : Finset String) :
    Finset Int → List PgnD → Except PyErr Bool
  | _, [] => Except.ok true
  | seen_values, variant :: rest =>
    if variant.Id ∈ ignore_variants then
      checkVariants ref_field0 ignore_variants seen_values rest
    else do
      let variant_field0 ← firstField variant
      if ref_field0.Id ≠ variant_field0.Id then Except.ok false
      else do
        let m ← match variant_field0.Match with
          | none => Except.error PyErr.keyError
          | some m => Except.ok m
        if m ∈ seen_values then Except.ok false
        else if ref_field0.BitOffset ≠ variant_field0.BitOffset then Except.ok false
        else if ref_field0.BitLength ≠ variant_field0.BitLength then Except.ok false
        else checkVariants ref_field0 ignore_variants (insert m seen_values) rest

/-- Model of `_validate_multiplex_field(variants)`. -/
def _validate_multiplex_field (variants : List PgnD) : Except PyErr Bool := do
  let ignore_variants ← collectIgnored variants
  match variants with
  | [] => Except.error PyErr.indexError
  | ref :: rest => do
    let ref_field0 ← firstField ref
    match ref_field0.Match with
    | none => Except.ok false
    | some m0 => checkVariants ref_field0 ignore_variants {m0} rest

/-- The comprehension `[v for v in variants if v["Length"] < 8 and
v["Type"] != "Fast"]`: Python `and` short-circuits, so `v["Type"]` is read —
and can raise `KeyError` — only when `v["Length"] < 8`. -/
def filterValid : List PgnD → Except PyErr (List PgnD)
  | [] => Except.ok []
  | v :: rest => do
    let keep : Bool ←
      if v.Length < 8 then
        match v.Type' with
        | none => Except.error PyErr.keyError
        | some t => Except.ok (t != "Fast")
      else Except.ok false
    let l ← filterValid rest
    Except.ok (if keep then v :: l else l)

/-- The dict comprehension pairing each valid variant's first-field `Match`
value with the variant's `Id` (variants without `Match` are filtered). -/
def choicePairs : List PgnD → Except PyErr (List (Int × String))
  | [] => Except.ok []
  | variant :: rest => do
    let f0 ← firstField variant
    let l ← choicePairs rest
    Except.ok (match f0.Match with | some m => (m, variant.Id) :: l | none => l)

/-- The loop body of `_get_variant_signals` over `variant["Fields"][1:]`:
build each `Field`, prefix its unique id with `m<MatchValue>_`, tag it with
the variant's `Match` value and map it to a `Signal` referencing the
multiplexer signal. -/
def variantFieldsToSignals (variant_match : Int) (mux_name : String) :
    List FieldD → Finset String → Except PyErr (List Signal × Finset String)
  | [], reserved => Except.ok ([], reserved)
  | json_field :: rest, reserved => do
    let p ← mkField json_field reserved
    let new_id := "m" ++ intStr variant_match ++ "_" ++ p.1.id
    let field := { p.1 with id := new_id, multiplexer_ids := some [variant_match] }
    let q ← variantFieldsToSignals variant_match mux_name rest p.2
    Except.ok (_field_to_signal field (some mux_name) :: q.1, q.2)

/-- Model of `_get_variant_signals(variant, multiplexer_signal, reserved)`;
a variant whose first field has no `Match` contributes no signals. -/
def _get_variant_signals (variant : PgnD) (mux_name : String)
    (reserved_field_ids : Finset String) : Except PyErr (List Signal × Finset String) :=
  match variant.Fields with
  | [] => Except.error PyErr.indexError
  | f0 :: rest =>
    match f0.Match with
    | none => Except.ok ([], reserved_field_ids)
    | some variant_match => variantFieldsToSignals variant_match mux_name rest reserved_field_ids

/-- The `for variant in valid_variants` loop extending `signals` with each
variant's signals. -/
def variantsToSignals (mux_name : String) :
    List PgnD → Finset String → Except PyErr (List Signal × Finset String)
  | [], reserved => Except.ok ([], reserved)
  | variant :: rest, reserved => do
    let p ← _get_variant_signals variant mux_name reserved
    let q ← variantsToSignals mux_name rest p.2
    Except.ok (p.1 ++ q.1, q.2)

/-- Model of `_variants_to_multiplexed_message(pgn_number, variants)`. -/
def _variants_to_multiplexed_message (pgn_number : Nat) (variants : List PgnD) :
    Except PyErr (Option Message) := do
  let valid ← _validate_multiplex_field variants
  if !valid then Except.ok none
  else do
    let pgn_id := "PGN_" ++ natStr pgn_number ++ "_multiplexed"
    let pgn_length ← match (variants.map (fun v => v.Length)).maximum? with
      | none => Except.error PyErr.valueError
      | some m => Except.ok m
    let valid_variants ← filterValid variants
    if valid_variants.length < variants.length then Except.ok none
    else
      match valid_variants with
      | [] => Except.error PyErr.indexError
      | vv0 :: _ => do
        let f0 ← firstField vv0
        let p ← mkField f0 (∅ : Finset String)
        let pairs ← choicePairs valid_variants
        let multiplex_choices := pyDictOfList pairs
        let multiplex_field :=
          { p.1 with enum_values := some multiplex_choices, multiplexer := true }
        let multiplex_signal := _field_to_signal multiplex_field none
        let q ← variantsToSignals multiplex_signal.name valid_variants p.2
        Except.ok (some (_pgn_to_message pgn_number pgn_id "Multiplexed message" pgn_length
          (multiplex_signal :: q.1)))

/-- One step of `pgns.setdefault(pgn_number, []).append(pgn)`. -/
def group_insert (groups : List (Nat × List PgnD)) (p : PgnD) : List (Nat × List PgnD) :=
  if groups.any (fun g => g.1 == p.PGN) then
    groups.map (fun g => if g.1 == p.PGN then (g.1, g.2 ++ [p]) else g)
  else groups ++ [(p.PGN, [p])]

/-- Grouping of the flat PGN list by PGN number, preserving first-seen key
order and per-key insertion order (Python dict semantics). -/
def group_pgns (l : List PgnD) : List (Nat × List PgnD) := l.foldl group_insert []

/-- The `for pgn_number, variants in pgns.items()` loop of `messages`: a
group producing `None` contributes nothing (after a warning) and processing
continues; an uncaught exception aborts the whole generator. -/
def processGroups : List (Nat × List PgnD) → Except PyErr (List Message)
  | [] => Except.ok []
  | (pgn_number, variants) :: rest => do
    let m ←
      if variants.length > 1 then _variants_to_multiplexed_message pgn_number variants
      else match variants with
        | [] => Except.error PyErr.indexError
        | v :: _ => _json_to_message v
    let ms ← processGroups rest
    Except.ok (match m with | some msg => msg :: ms | none => ms)

/-- Model of the `messages` generator, fully consumed. -/
def messages (json_PGNs : List PgnD) : Except PyErr (List Message) :=
  processGroups (group_pgns json_PGNs)

/-- The `cantools` `Database` assembled by `get_database`. -/
structure Database where
  messages : List Message
  version : String
  strict : Bool
  deriving DecidableEq

/-- Model of `get_database`; the wall-clock ISO timestamp is passed in as
`date_str`, the only place it is used is the version string. -/
def get_database (json_PGNs : List PgnD) (date_str : String) : Except PyErr Database := do
  let version_str := "Canboat export " ++ date_str
  let ms ← messages json_PGNs
  Except.ok { messages := ms, version := version_str, strict := true }

/-- True when the conversion of a group produced an actual message. -/
def producesMessage (r : Except PyErr (Option Message)) : Bool :=
  match r with
  | Except.ok (some _) => true
  | _ => false

/-- A one-byte discriminator field carrying a `Match` value, shared shape of
the first field of the sample variant groups below. -/
def discField (m : Int) : FieldD :=
  { Order := 1, Id := "industryCode", Name := "Industry Code",
    BitLength := 8, BitOffset := 0, BitStart := 0, Match := some m }

/-- Sample ISO-typed variant, case 0, of a two-variant group (PGN 61184). -/
def isoA : PgnD :=
  { PGN := 61184, Id := "isoVariantA", Description := "iso variant a",
    Type' := some "ISO", Length := 2, Fields := [discField 0] }

/-- Sample ISO-typed variant, case 1, of a two-variant group (PGN 61184). -/
def isoB : PgnD :=
  { PGN := 61184, Id := "isoVariantB", Description := "iso variant b",
    Type' := some "ISO", Length := 2, Fields := [discField 1] }

/-- Sample short variant without the optional `Type` key (PGN 65280). -/
def mixNoTypeShort : PgnD :=
  { PGN := 65280, Id := "mixNoTypeShort", Description := "short, Type key absent",
    Type' := none, Length := 2, Fields := [discField 0] }

/-- Sample 8-byte variant with a `Type` key (PGN 65280). -/
def mixLongTyped : PgnD :=
  { PGN := 65280, Id := "mixLongTyped", Description := "long variant",
    Type' := some "Single", Length := 8, Fields := [discField 1] }

/-- Sample short variant with a `Type` key (PGN 65281). -/
def shortTyped : PgnD :=
  { PGN := 65281, Id := "shortTyped", Description := "short",
    Type' := some "Single", Length := 2, Fields := [discField 0] }

/-- Sample 8-byte variant without the optional `Type` key (PGN 65281). -/
def longNoType : PgnD :=
  { PGN := 65281, Id := "longNoType", Description := "long, Type key absent",
    Type' := none, Length := 8, Fields := [discField 1] }

/-- Sample short variant without the optional `Type` key (PGN 65282),
paired with `fastTyped` below. -/
def shortNoType : PgnD :=
  { PGN := 65282, Id := "shortNoType", Description := "short, Type key absent",
    Type' := none, Length := 2, Fields := [discField 0] }

/-- Sample explicit fast-packet variant (PGN 65282). -/
def fastTyped : PgnD :=
  { PGN := 65282, Id := "fastTyped", Description := "fast variant",
    Type' := some "Fast", Length := 2, Fields := [discField 1] }

/-- Sample single-definition ISO-typed PGN. -/
def sampleIso : PgnD :=
  { PGN := 59904, Id := "isoRequest", Description := "ISO Request",
    Type' := some "ISO", Length := 3,
    Fields := [{ Order := 1, Id := "pgn", Name := "PGN",
                 BitLength := 24, BitOffset := 0, BitStart := 0 }] }

/-- Sample single-definition fast-packet PGN: `Length = 43 > 8`, no
explicit `Type` tag. -/
def sampleFast : PgnD :=
  { PGN := 129029, Id := "gnssPositionData", Description := "GNSS Position Data",
    Type' := none, Length := 43,
    Fields := [{ Order := 1, Id := "sid", Name := "SID",
                 BitLength := 8, BitOffset := 0, BitStart := 0 }] }

/-- A 16-bit field at bit offset 56, overflowing an 8-byte message. -/
def overflowField : FieldD :=
  { Order := 1, Id := "tilt", Name := "Tilt",
    BitLength := 16, BitOffset := 56, BitStart := 0 }

/-- Sample single-frame PGN whose last field overflows the declared length
(`56 + 16 = 72 > 64`). -/
def sampleOverflow : PgnD :=
  { PGN := 127488, Id := "engineParametersRapidUpdate", Description := "overflowing",
    Length := 8, Fields := [overflowField] }

/-- An 8-bit field at bit offset 56, exactly filling an 8-byte message. -/
def fitField : FieldD :=
  { Order := 1, Id := "voltage", Name := "Voltage",
    BitLength := 8, BitOffset := 56, BitStart := 0 }

/-- Sample single-frame PGN whose last field fits the declared length. -/
def sampleFit : PgnD :=
  { PGN := 127508, Id := "batteryStatus", Description := "fitting",
    Length := 8, Fields := [fitField] }

/-- Payload field of the sample multiplexed variant, case 0. -/
def payloadA : FieldD :=
  { Order := 2, Id := "payload", Name := "Payload A",
    BitLength := 8, BitOffset := 8, BitStart := 0 }

/-- Payload field of the sample multiplexed variant, case 1. -/
def payloadB : FieldD :=
  { Order := 2, Id := "payload", Name := "Payload B",
    BitLength := 16, BitOffset := 8, BitStart := 0 }

/-- Sample multiplexed variant, case 0, with one payload field after the
discriminator (PGN 65283). -/
def muxA : PgnD :=
  { PGN := 65283, Id := "muxVariantA", Description := "variant a",
    Type' := some "Single", Length := 4, Fields := [discField 0, payloadA] }

/-- Sample multiplexed variant, case 1, with one payload field after the
discriminator (PGN 65283). -/
def muxB : PgnD :=
  { PGN := 65283, Id := "muxVariantB", Description := "variant b",
    Type' := some "Single", Length := 4, Fields := [discField 1, payloadB] }

end Canboat

namespace Canboat

theorem toDigitsRev_eq_digits :
    ∀ (fuel n : Nat), n < fuel → toDigitsRev fuel n = Nat.digits 10 n := by
  intro fuel
  induction fuel with
  | zero => intro n h; exact absurd h (Nat.not_lt_zero n)
  | succ f ih =>
    intro n h
    by_cases hn : n = 0
    · subst hn; simp [toDigitsRev]
    · rw [show toDigitsRev (f + 1) n = n % 10 :: toDigitsRev f (n / 10) from by
        simp [toDigitsRev, hn]]
      rw [@Nat.digits_def' 10 (by norm_num) n (Nat.pos_of_ne_zero hn)]
      congr 1
      have hd : n / 10 < n := Nat.div_lt_self (Nat.pos_of_ne_zero hn) (by norm_num)
      exact ih (n / 10) (by omega)

theorem decodeDigit_digitChar (d : Nat) (h : d < 10) : decodeDigit (Nat.digitChar d) = d := by
  interval_cases d <;> rfl

theorem map_decode_digitChar :
    ∀ l : List Nat, (∀ d ∈ l, d < 10) → List.map (decodeDigit ∘ Nat.digitChar) l = l := by
  intro l hl
  induction l with
  | nil => rfl
  | cons a t iht =>
    simp only [List.map_cons]
    rw [iht (fun d hd => hl d (List.mem_cons_of_mem a hd))]
    congr 1
    exact decodeDigit_digitChar a (hl a (List.mem_cons_self a t))

theorem decodeData_natStr (n : Nat) : decodeData (natStr n).data = n := by
  by_cases hn : n = 0
  · subst hn; decide
  · simp only [natStr, if_neg hn]
    show decodeData (((toDigitsRev (n + 1) n).map Nat.digitChar).reverse) = n
    rw [toDigitsRev_eq_digits (n + 1) n (Nat.lt_succ_self n)]
    unfold decodeData
    rw [List.map_reverse, List.reverse_reverse, List.map_map]
    rw [map_decode_digitChar _ (fun d hd => Nat.digits_lt_base (by norm_num) hd)]
    exact Nat.ofDigits_digits 10 n

theorem pyFormat_inj (id_ : String) (i j : Nat) (h : pyFormat id_ i = pyFormat id_ j) :
    i = j := by
  have hd := congrArg String.data h
  simp only [pyFormat, String.data_append] at hd
  have h2 : (natStr i).data = (natStr j).data := List.append_cancel_left hd
  have h3 := congrArg decodeData h2
  rw [decodeData_natStr, decodeData_natStr] at h3
  exact h3

theorem exists_fresh_suffix (id_ : String) (reserved : Finset String) :
    ∃ j, j < reserved.card + 1 ∧ pyFormat id_ (1 + j) ∉ reserved := by
  by_contra hc
  push_neg at hc
  have hsub : (Finset.range (reserved.card + 1)).image (fun j => pyFormat id_ (1 + j))
      ⊆ reserved := by
    intro x hx
    rcases Finset.mem_image.mp hx with ⟨j, hj, rfl⟩
    exact hc j (Finset.mem_range.mp hj)
  have hinj : Set.InjOn (fun j => pyFormat id_ (1 + j))
      ↑(Finset.range (reserved.card + 1)) := by
    intro a _ b _ hab
    have := pyFormat_inj id_ (1 + a) (1 + b) hab
    omega
  have hcard := Finset.card_le_card hsub
  rw [Finset.card_image_of_injOn hinj, Finset.card_range] at hcard
  omega

theorem findSuffix_spec (id_ : String) (reserved : Finset String) :
    ∀ (fuel start : Nat), (∃ j, j < fuel ∧ pyFormat id_ (start + j) ∉ reserved) →
    ∃ k, start ≤ k ∧ pyFormat id_ k ∉ reserved ∧
      (∀ j, start ≤ j → j < k → pyFormat id_ j ∈ reserved) ∧
      findSuffix id_ reserved fuel start = pyFormat id_ k := by
  intro fuel
  induction fuel with
  | zero =>
    intro start h
    obtain ⟨j, hj, _⟩ := h
    omega
  | succ f ih =>
    intro start h
    by_cases hs : pyFormat id_ start ∉ reserved
    · refine ⟨start, le_refl _, hs, ?_, ?_⟩
      · intro j h1 h2; omega
      · simp [findSuffix, hs]
    · push_neg at hs
      obtain ⟨j, hj, hfree⟩ := h
      have hj0 : j ≠ 0 := by
        intro h0
        subst h0
        exact hfree hs
      obtain ⟨k, hk1, hk2, hk3, hk4⟩ := ih (start + 1)
        ⟨j - 1, by omega, by
          have harg : start + 1 + (j - 1) = start + j := by omega
          rw [harg]; exact hfree⟩
      refine ⟨k, by omega, hk2, ?_, ?_⟩
      · intro i h1 h2
        rcases Nat.eq_or_lt_of_le h1 with heq | hlt
        · rw [← heq]; exact hs
        · exact hk3 i hlt h2
      · rw [show findSuffix id_ reserved (f + 1) start = findSuffix id_ reserved f (start + 1) from by
          simp [findSuffix, not_not_intro hs]]
        exact hk4

theorem get_unique_id_mem_spec (id_ : String) (reserved : Finset String) (h : id_ ∈ reserved) :
    ∃ k, 1 ≤ k ∧ pyFormat id_ k ∉ reserved ∧
      (∀ j, 1 ≤ j → j < k → pyFormat id_ j ∈ reserved) ∧
      get_unique_id id_ reserved = (pyFormat id_ k, insert (pyFormat id_ k) reserved) := by
  obtain ⟨j, hj, hfree⟩ := exists_fresh_suffix id_ reserved
  obtain ⟨k, hk1, hk2, hk3, hk4⟩ :=
    findSuffix_spec id_ reserved (reserved.card + 1) 1 ⟨j, hj, hfree⟩
  refine ⟨k, hk1, hk2, hk3, ?_⟩
  rw [get_unique_id, if_neg (not_not_intro h), hk4]

theorem get_unique_id_fresh (id_ : String) (r : Finset String) :
    (get_unique_id id_ r).1 ∉ r := by
  by_cases h : id_ ∈ r
  · obtain ⟨k, _, hk2, _, heq⟩ := get_unique_id_mem_spec id_ r h
    rw [heq]
    exact hk2
  · rw [get_unique_id, if_pos h]
    exact h

theorem get_unique_id_snd (id_ : String) (r : Finset String) :
    (get_unique_id id_ r).2 = insert (get_unique_id id_ r).1 r := by
  rw [get_unique_id]
  split <;> rfl

theorem normalize_ids_cons (a : String) (l : List String) (r : Finset String) :
    normalize_ids (a :: l) r =
      ((get_unique_id a r).1 :: (normalize_ids l (get_unique_id a r).2).1,
       (normalize_ids l (get_unique_id a r).2).2) := rfl

theorem normalize_ids_spec :
    ∀ (l : List String) (r : Finset String),
      (∀ x ∈ (normalize_ids l r).1, x ∉ r) ∧ (normalize_ids l r).1.Nodup := by
  intro l
  induction l with
  | nil =>
    intro r
    exact ⟨fun x hx => absurd hx (List.not_mem_nil x), List.nodup_nil⟩
  | cons a l ih =>
    intro r
    have hfresh := get_unique_id_fresh a r
    have hsnd := get_unique_id_snd a r
    obtain ⟨ihmem, ihnd⟩ := ih (get_unique_id a r).2
    rw [normalize_ids_cons]
    constructor
    · intro x hx
      rcases List.mem_cons.mp hx with rfl | hx
      · exact hfresh
      · intro hxr
        exact ihmem x hx (by rw [hsnd]; exact Finset.mem_insert_of_mem hxr)
    · refine List.nodup_cons.mpr ⟨?_, ihnd⟩
      intro hmem
      exact ihmem _ hmem (by rw [hsnd]; exact Finset.mem_insert_self _ _)

/-- C7 (amended): normalizing a sequence of raw Ids against one
message-scoped reserved set yields pairwise-distinct Ids; an Id that is not
yet reserved when processed is returned unmodified; an Id that is already
reserved receives the smallest suffix `_k` (`k ≥ 1`) whose suffixed name is
not yet reserved, so an already-taken suffixed name is skipped in favour of
the next integer. -/
theorem field_normalizer_spec :
    (∀ (l : List String) (r : Finset String), (normalize_ids l r).1.Nodup) ∧
    (∀ (id_ : String) (r : Finset String), id_ ∉ r →
      get_unique_id id_ r = (id_, insert id_ r)) ∧
    (∀ (id_ : String) (r : Finset String), id_ ∈ r →
      ∃ k, 1 ≤ k ∧ pyFormat id_ k ∉ r ∧
        (∀ j, 1 ≤ j → j < k → pyFormat id_ j ∈ r) ∧
        get_unique_id id_ r = (pyFormat id_ k, insert (pyFormat id_ k) r)) := by
  refine ⟨fun l r => (normalize_ids_spec l r).2, ?_, get_unique_id_mem_spec⟩
  intro id_ r h
  rw [get_unique_id, if_pos h]

/-- C7 counterexample: on the raw Id sequence `["b", "b", "b_1"]` with an
empty reserved set, the second `"b"` is renamed to `"b_1"`, so the FIRST
occurrence of the raw Id `"b_1"` is itself renamed to `"b_1_1"`: the claim
that the first occurrence of each Id is returned unmodified is false. -/
theorem first_occurrence_modified :
    (normalize_ids ["b", "b", "b_1"] ∅).1 = ["b", "b_1", "b_1_1"] ∧
    "b_1_1" ≠ "b_1" := by decide

/-- C7 witness: the three parts of `field_normalizer_spec` applied at
concrete inputs. -/
theorem field_normalizer_spec_witness :
    (normalize_ids ["reservedBits", "reservedBits"] ∅).1.Nodup ∧
    get_unique_id "sid" ∅ = ("sid", insert "sid" ∅) ∧
    (∃ k, 1 ≤ k ∧ pyFormat "sid" k ∉ ({"sid"} : Finset String) ∧
      (∀ j, 1 ≤ j → j < k → pyFormat "sid" j ∈ ({"sid"} : Finset String)) ∧
      get_unique_id "sid" {"sid"} =
        (pyFormat "sid" k, insert (pyFormat "sid" k) {"sid"})) :=
  ⟨field_normalizer_spec.1 ["reservedBits", "reservedBits"] ∅,
   field_normalizer_spec.2.1 "sid" ∅ (by simp),
   field_normalizer_spec.2.2 "sid" {"sid"} (by simp)⟩

end Canboat

namespace Canboat

theorem lor_shift_add (a b k : Nat) (hb : b < 2 ^ k) : (a <<< k) ||| b = 2 ^ k * a + b := by
  apply Nat.eq_of_testBit_eq
  intro j
  rw [Nat.testBit_mul_pow_two_add a hb j, Nat.testBit_or, Nat.testBit_shiftLeft]
  by_cases hj : j < k
  · have h1 : ¬ (j ≥ k) := by omega
    simp [hj, h1]
  · have h1 : j ≥ k := by omega
    have h2 : b < 2 ^ j := lt_of_lt_of_le hb (Nat.pow_le_pow_right (by norm_num) h1)
    simp [hj, h1, Nat.testBit_lt_two_pow h2]

theorem and_two_pow_sub_one (x k : Nat) : x &&& (2 ^ k - 1) = x % 2 ^ k := by
  apply Nat.eq_of_testBit_eq
  intro j
  rw [Nat.testBit_and, Nat.testBit_two_pow_sub_one, Nat.testBit_mod_two_pow]
  exact Bool.and_comm _ _

theorem frame_id_unfold (pgn : Nat) :
    _pgn_to_frame_id pgn =
      (6 <<< 26) ||| (0 <<< 25) ||| (((pgn >>> 16) &&& 1) <<< 24) |||
      (((pgn >>> 8) &&& 255) <<< 16) ||| ((pgn &&& 255) <<< 8) ||| 254 := rfl

theorem frame_arith (p : Nat) :
    _pgn_to_frame_id p =
      2 ^ 26 * 6 + (2 ^ 24 * ((p >>> 16) &&& 1) +
        (2 ^ 16 * ((p >>> 8) &&& 255) + (2 ^ 8 * (p &&& 255) + 254))) := by
  have hdp : (p >>> 16) &&& 1 ≤ 1 := Nat.and_le_right
  have hpf : (p >>> 8) &&& 255 ≤ 255 := Nat.and_le_right
  have hps : p &&& 255 ≤ 255 := Nat.and_le_right
  have b1 : (254 : Nat) < 2 ^ 8 := by norm_num
  have b2 : 2 ^ 8 * (p &&& 255) + 254 < 2 ^ 16 := by
    rw [show (2 : Nat) ^ 8 = 256 from by norm_num, show (2 : Nat) ^ 16 = 65536 from by norm_num]
    omega
  have b3 : 2 ^ 16 * ((p >>> 8) &&& 255) + (2 ^ 8 * (p &&& 255) + 254) < 2 ^ 24 := by
    rw [show (2 : Nat) ^ 8 = 256 from by norm_num, show (2 : Nat) ^ 16 = 65536 from by norm_num,
      show (2 : Nat) ^ 24 = 16777216 from by norm_num]
    omega
  have b4 : 2 ^ 24 * ((p >>> 16) &&& 1) +
      (2 ^ 16 * ((p >>> 8) &&& 255) + (2 ^ 8 * (p &&& 255) + 254)) < 2 ^ 26 := by
    rw [show (2 : Nat) ^ 8 = 256 from by norm_num, show (2 : Nat) ^ 16 = 65536 from by norm_num,
      show (2 : Nat) ^ 24 = 16777216 from by norm_num,
      show (2 : Nat) ^ 26 = 67108864 from by norm_num]
    omega
  rw [frame_id_unfold, Nat.zero_shiftLeft, Nat.or_zero,
    Nat.or_assoc, Nat.or_assoc, Nat.or_assoc,
    lor_shift_add _ 254 8 b1, lor_shift_add _ _ 16 b2, lor_shift_add _ _ 24 b3,
    lor_shift_add 6 _ 26 b4]

/-- C2 (amended): the Frame-ID Encoder is deterministic, and it is injective
over the PGN domain `0..0x1FFFF`; PGN bit 17 is discarded by the formula
(the reserved bit of the 29-bit identifier is fixed to 0), so injectivity
holds on 17-bit PGNs but not on the full `0..0x3FFFF` range. -/
theorem frame_id_deterministic_injective :
    (∀ p : Nat, _pgn_to_frame_id p = _pgn_to_frame_id p) ∧
    (∀ p q : Nat, p < 131072 → q < 131072 →
      _pgn_to_frame_id p = _pgn_to_frame_id q → p = q) := by
  refine ⟨fun p => rfl, fun p q hp hq h => ?_⟩
  rw [frame_arith p, frame_arith q] at h
  have e255 : ∀ x : Nat, x &&& 255 = x % 256 := by
    intro x
    have hx := and_two_pow_sub_one x 8
    norm_num at hx
    exact hx
  simp only [e255, Nat.and_one_is_mod, Nat.shiftRight_eq_div_pow] at h
  norm_num at h
  omega

/-- C2 counterexample: the claimed injectivity domain `0..0x3FFFF` is wrong:
PGN 0 and PGN 0x20000 = 131072 are distinct members of that range and are
encoded to the same 29-bit identifier (bit 17 of the PGN is dropped). -/
theorem frame_id_collision_18bit :
    _pgn_to_frame_id 0 = _pgn_to_frame_id 131072 ∧ (0 : Nat) ≠ 131072 ∧
    (131072 : Nat) ≤ 262143 := by decide

/-- C2 witness: the injectivity statement applied at the concrete PGN
127245. -/
theorem frame_id_deterministic_injective_witness :
    (127245 : Nat) < 131072 ∧ (127245 : Nat) = 127245 :=
  ⟨by norm_num,
   frame_id_deterministic_injective.2 127245 127245 (by norm_num) (by norm_num) rfl⟩

/-- C3: for every PGN number the encoder returns exactly
`(6 << 26) | (((pgn >> 16) & 1) << 24) | (((pgn >> 8) & 255) << 16) |
((pgn & 255) << 8) | 0xFE`, and in particular the identifier encoded for
PGN 127245 carries PDU-format `(127245 >> 8) & 0xFF`, PDU-specific
`127245 & 0xFF`, data-page bit `(127245 >> 16) & 1`, priority 6 and source
address 0xFE. -/
theorem frame_id_formula :
    (∀ pgn : Nat, _pgn_to_frame_id pgn =
      (6 <<< 26) ||| (((pgn >>> 16) &&& 1) <<< 24) ||| (((pgn >>> 8) &&& 255) <<< 16) |||
      ((pgn &&& 255) <<< 8) ||| 0xFE) ∧
    (_pgn_to_frame_id 127245 >>> 16) &&& 255 = (127245 >>> 8) &&& 255 ∧
    (_pgn_to_frame_id 127245 >>> 8) &&& 255 = 127245 &&& 255 ∧
    (_pgn_to_frame_id 127245 >>> 24) &&& 1 = (127245 >>> 16) &&& 1 ∧
    _pgn_to_frame_id 127245 >>> 26 = 6 ∧
    _pgn_to_frame_id 127245 &&& 255 = 0xFE := by
  refine ⟨fun pgn => ?_, by decide, by decide, by decide, by decide, by decide⟩
  rw [frame_id_unfold, Nat.zero_shiftLeft, Nat.or_zero]

end Canboat

namespace Canboat

theorem except_bind_ok {ε α β : Type} (a : α) (f : α → Except ε β) :
    (Except.ok a >>= f : Except ε β) = f a := rfl

theorem except_bind_error {ε α β : Type} (e : ε) (f : α → Except ε β) :
    (Except.error e >>= f : Except ε β) = Except.error e := rfl

/-- C4: a single-definition PGN whose `Type` is `"Fast"` or whose declared
`Length` exceeds 8 bytes (and whose `Type` is not `"ISO"`) is converted to a
message with exactly two signals, regardless of its field list: an 8-bit
non-signed `fastPacketSequenceCounter` at bit offset 0 and a 56-bit
`fastPacketData` at bit offset 8. -/
theorem fast_path_two_signals (j : PgnD) (hiso : j.Type' ≠ some "ISO")
    (hfast : j.Type' = some "Fast" ∨ 8 < j.Length) :
    ∃ m : Message, _json_to_message j = Except.ok (some m) ∧
      m.signals.length = 2 ∧
      ∃ s1 s2, m.signals = [s1, s2] ∧
        s1.name = "fastPacketSequenceCounter" ∧ s1.length = 8 ∧ s1.start = 0 ∧
        s1.is_signed ≠ some true ∧
        s2.name = "fastPacketData" ∧ s2.length = 56 ∧ s2.start = 8 := by
  unfold _json_to_message
  rw [if_neg hiso, if_pos hfast]
  exact ⟨_, rfl, rfl, _, _, rfl, rfl, rfl, rfl, by decide, rfl, rfl, rfl⟩

/-- C4 witness: `sampleFast` (Length 43, no explicit `Type`) takes the
fast-packet path and gets the synthetic two-signal layout. -/
theorem fast_path_two_signals_witness :
    sampleFast.Type' ≠ some "ISO" ∧ (sampleFast.Type' = some "Fast" ∨ 8 < sampleFast.Length) ∧
    (∃ m : Message, _json_to_message sampleFast = Except.ok (some m) ∧
      m.signals.length = 2 ∧
      ∃ s1 s2, m.signals = [s1, s2] ∧
        s1.name = "fastPacketSequenceCounter" ∧ s1.length = 8 ∧ s1.start = 0 ∧
        s1.is_signed ≠ some true ∧
        s2.name = "fastPacketData" ∧ s2.length = 56 ∧ s2.start = 8) :=
  ⟨by decide, by decide, fast_path_two_signals sampleFast (by decide) (by decide)⟩

/-- C5: on the Single path (`Type` neither `"ISO"` nor `"Fast"`, `Length ≤ 8`)
a group whose last field overflows `Length × 8` bits yields no message, while
a last field that fits passes `_validate_data_length`. -/
theorem single_path_length_validation (j : PgnD) (lf : FieldD)
    (hiso : j.Type' ≠ some "ISO") (hfastT : j.Type' ≠ some "Fast") (hlen : j.Length ≤ 8)
    (hlast : j.Fields.getLast? = some lf) :
    (j.Length * 8 < lf.BitOffset + lf.BitLength → _json_to_message j = Except.ok none) ∧
    (lf.BitOffset + lf.BitLength ≤ j.Length * 8 →
      _validate_data_length j.Fields j.Length = Except.ok true) := by
  have hcond : ¬ (j.Type' = some "Fast" ∨ 8 < j.Length) := by
    rintro (h | h)
    · exact hfastT h
    · omega
  constructor
  · intro hover
    have hval : _validate_data_length j.Fields j.Length = Except.ok false := by
      simp only [_validate_data_length, hlast]
      congr 1
      simp
      omega
    rw [show _json_to_message j = _single_to_message j from by
      rw [_json_to_message, if_neg hiso, if_neg hcond]]
    simp only [_single_to_message, hval, except_bind_ok]
    rfl
  · intro hfit
    simp only [_validate_data_length, hlast]
    congr 1
    simp [hfit]

/-- C5 witness: `sampleOverflow` (last field 56+16 bits against Length 8) is
rejected; `sampleFit` (last field 56+8 bits against Length 8) passes the
length check. -/
theorem single_path_length_validation_witness :
    _json_to_message sampleOverflow = Except.ok none ∧
    _validate_data_length sampleFit.Fields sampleFit.Length = Except.ok true :=
  ⟨(single_path_length_validation sampleOverflow overflowField
      (by decide) (by decide) (by decide) (by decide)).1 (by decide),
   (single_path_length_validation sampleFit fitField
      (by decide) (by decide) (by decide) (by decide)).2 (by decide)⟩

end Canboat

namespace Canboat

theorem filterValid_ok :
    ∀ (variants : List PgnD),
      (∀ v ∈ variants, v.Length < 8 → v.Type' ≠ none) →
      ∃ l, filterValid variants = Except.ok l ∧ l.length ≤ variants.length ∧
        ((∃ v ∈ variants, 8 ≤ v.Length ∨ v.Type' = some "Fast") →
          l.length < variants.length) := by
  intro variants
  induction variants with
  | nil =>
    intro _
    refine ⟨[], rfl, le_refl _, ?_⟩
    rintro ⟨v, hv, _⟩
    exact absurd hv (List.not_mem_nil v)
  | cons v rest ih =>
    intro hall
    obtain ⟨l, hl, hlen, hstrict⟩ := ih (fun w hw => hall w (List.mem_cons_of_mem v hw))
    by_cases hvl : v.Length < 8
    · obtain ⟨t, ht⟩ :=
        Option.ne_none_iff_exists'.mp (hall v (List.mem_cons_self v rest) hvl)
      by_cases hft : t = "Fast"
      · refine ⟨l, ?_, ?_, ?_⟩
        · simp [filterValid, hvl, ht, hft, hl, except_bind_ok]
        · simp only [List.length_cons]; omega
        · intro _; simp only [List.length_cons]; omega
      · refine ⟨v :: l, ?_, ?_, ?_⟩
        · simp [filterValid, hvl, ht, hft, hl, except_bind_ok]
        · simp only [List.length_cons]; omega
        · rintro ⟨w, hw, hcase⟩
          rcases List.mem_cons.mp hw with rfl | hw2
          · rcases hcase with h8 | hfast
            · omega
            · rw [ht] at hfast
              exact absurd (Option.some.inj hfast) hft
          · have := hstrict ⟨w, hw2, hcase⟩
            simp only [List.length_cons]
            omega
    · refine ⟨l, ?_, ?_, ?_⟩
      · simp [filterValid, hvl, hl, except_bind_ok]
      · simp only [List.length_cons]; omega
      · intro _; simp only [List.length_cons]; omega

theorem filterValid_error :
    ∀ (variants : List PgnD),
      (∃ v ∈ variants, v.Length < 8 ∧ v.Type' = none) →
      filterValid variants = Except.error PyErr.keyError := by
  intro variants
  induction variants with
  | nil =>
    rintro ⟨v, hv, _⟩
    exact absurd hv (List.not_mem_nil v)
  | cons v rest ih =>
    rintro ⟨w, hw, hwl, hwt⟩
    by_cases hv : v.Length < 8 ∧ v.Type' = none
    · simp [filterValid, hv.1, hv.2, except_bind_error]
    · have hwrest : w ∈ rest := by
        rcases List.mem_cons.mp hw with rfl | h
        · exact absurd ⟨hwl, hwt⟩ hv
        · exact h
      have herr := ih ⟨w, hwrest, hwl, hwt⟩
      by_cases hvl : v.Length < 8
      · have ht : v.Type' ≠ none := fun h => hv ⟨hvl, h⟩
        obtain ⟨t, hts⟩ := Option.ne_none_iff_exists'.mp ht
        simp [filterValid, hvl, hts, herr, except_bind_ok, except_bind_error]
      · simp [filterValid, hvl, herr, except_bind_ok, except_bind_error]

/-- C6 (amended): a variant group that passes multiplex-field validation, in
which every variant shorter than 8 bytes carries the `Type` key, and which
contains at least one variant of `Length ≥ 8` or of `Type` `"Fast"`, is
rejected as a whole: the merge yields no message and processing continues
with the remaining groups.  (Without the `Type`-key condition the comparison
`v["Type"] != "Fast"` can raise `KeyError` instead, see the
counterexample.) -/
theorem fast_variant_rejects_merge (pgn_number : Nat) (variants : List PgnD)
    (hval : _validate_multiplex_field variants = Except.ok true)
    (htype : ∀ v ∈ variants, v.Length < 8 → v.Type' ≠ none)
    (hfastv : ∃ v ∈ variants, 8 ≤ v.Length ∨ v.Type' = some "Fast")
    (hlen2 : 1 < variants.length) :
    _variants_to_multiplexed_message pgn_number variants = Except.ok none ∧
    ∀ rest, processGroups ((pgn_number, variants) :: rest) = processGroups rest := by
  obtain ⟨l, hfl, hle, hstrict⟩ := filterValid_ok variants htype
  have hlt := hstrict hfastv
  have hmerge : _variants_to_multiplexed_message pgn_number variants = Except.ok none := by
    cases variants with
    | nil => simp at hlen2
    | cons v rest =>
      have hmx : ∃ mx, (List.map (fun v => v.Length) (v :: rest)).maximum? = some mx :=
        ⟨_, rfl⟩
      obtain ⟨mx, hmx⟩ := hmx
      have hlt' : l.length < rest.length + 1 := by simpa using hlt
      simp [_variants_to_multiplexed_message, hval, hmx, hfl, except_bind_ok]
      intro hcon
      exact absurd hcon (by omega)
  refine ⟨hmerge, fun rest => ?_⟩
  cases hr : processGroups rest with
  | ok ms => simp [processGroups, hlen2, hmerge, hr, except_bind_ok]
  | error e => simp [processGroups, hlen2, hmerge, hr, except_bind_ok, except_bind_error]

/-- C6 counterexample: the group `[mixNoTypeShort, mixLongTyped]` passes
multiplex-field validation and contains an 8-byte variant, but instead of
being skipped with a warning, the merge raises `KeyError`: the comprehension
evaluates `v["Type"]` on the short variant, which lacks the optional `Type`
key. -/
theorem fast_variant_merge_keyerror :
    _validate_multiplex_field [mixNoTypeShort, mixLongTyped] = Except.ok true ∧
    (∃ v ∈ [mixNoTypeShort, mixLongTyped], 8 ≤ v.Length ∨ v.Type' = some "Fast") ∧
    _variants_to_multiplexed_message 65280 [mixNoTypeShort, mixLongTyped] =
      Except.error PyErr.keyError := by decide

/-- C6 witness: the amended statement applied to the concrete group
`[shortTyped, fastTyped]` (an explicit fast variant forces the whole merge
to be dropped). -/
theorem fast_variant_rejects_merge_witness :
    _validate_multiplex_field [shortTyped, fastTyped] = Except.ok true ∧
    (∃ v ∈ [shortTyped, fastTyped], 8 ≤ v.Length ∨ v.Type' = some "Fast") ∧
    _variants_to_multiplexed_message 65282 [shortTyped, fastTyped] = Except.ok none ∧
    processGroups [(65282, [shortTyped, fastTyped])] = processGroups [] :=
  ⟨by decide, by decide,
   (fast_variant_rejects_merge 65282 [shortTyped, fastTyped]
      (by decide) (by decide) (by decide) (by decide)).1,
   (fast_variant_rejects_merge 65282 [shortTyped, fastTyped]
      (by decide) (by decide) (by decide) (by decide)).2 []⟩

/-- C10 (amended): a variant group that passes multiplex-field validation
and contains a variant of `Length < 8` without the optional `Type` key makes
the merge raise an uncaught `KeyError` at the fast-variant filter (which
reads `v["Type"]` whenever `v["Length"] < 8` holds), aborting the whole
conversion; for a `Type`-less variant of `Length ≥ 8` the short-circuiting
`and` never reads `v["Type"]`, so no error is raised (see the
counterexample). -/
theorem missing_type_keyerror (pgn_number : Nat) (variants : List PgnD)
    (hval : _validate_multiplex_field variants = Except.ok true)
    (hmiss : ∃ v ∈ variants, v.Length < 8 ∧ v.Type' = none) :
    _variants_to_multiplexed_message pgn_number variants = Except.error PyErr.keyError ∧
    ∀ rest, 1 < variants.length →
      processGroups ((pgn_number, variants) :: rest) = Except.error PyErr.keyError := by
  have herr := filterValid_error variants hmiss
  have hmerge : _variants_to_multiplexed_message pgn_number variants =
      Except.error PyErr.keyError := by
    obtain ⟨w, hw, _⟩ := hmiss
    cases variants with
    | nil => exact absurd hw (List.not_mem_nil w)
    | cons v rest =>
      have hmx : ∃ mx, (List.map (fun v => v.Length) (v :: rest)).maximum? = some mx :=
        ⟨_, rfl⟩
      obtain ⟨mx, hmx⟩ := hmx
      simp [_variants_to_multiplexed_message, hval, hmx, herr,
        except_bind_ok, except_bind_error]
  refine ⟨hmerge, fun rest h2 => ?_⟩
  simp [processGroups, h2, hmerge, except_bind_error]

/-- C10 counterexample: in the group `[shortTyped, longNoType]` a variant
omits `Type`, yet no `KeyError` is raised: the `Type`-less variant has
`Length = 8`, Python's short-circuiting `and` skips `v["Type"]`, and the
merge returns `None` (fast-variant warning) instead of raising. -/
theorem missing_type_no_keyerror :
    _validate_multiplex_field [shortTyped, longNoType] = Except.ok true ∧
    (∃ v ∈ [shortTyped, longNoType], v.Type' = none) ∧
    _variants_to_multiplexed_message 65281 [shortTyped, longNoType] =
      Except.ok none := by decide

/-- C10 witness: the amended statement applied to the concrete group
`[mixNoTypeShort, mixLongTyped]`. -/
theorem missing_type_keyerror_witness :
    _variants_to_multiplexed_message 65280 [mixNoTypeShort, mixLongTyped] =
      Except.error PyErr.keyError ∧
    processGroups [(65280, [mixNoTypeShort, mixLongTyped])] =
      Except.error PyErr.keyError :=
  ⟨(missing_type_keyerror 65280 [mixNoTypeShort, mixLongTyped]
      (by decide) (by decide)).1,
   (missing_type_keyerror 65280 [mixNoTypeShort, mixLongTyped]
      (by decide) (by decide)).2 [] (by decide)⟩

/-- C8 (amended): a SINGLE-definition PGN group whose definition carries
`Type` `"ISO"` yields no message and processing continues with the
remaining groups; multi-definition (variant) groups are not subject to the
ISO check (see the counterexample). -/
theorem iso_single_skipped (j : PgnD) (hiso : j.Type' = some "ISO") :
    _json_to_message j = Except.ok none ∧
    ∀ (pgn_number : Nat) (rest : List (Nat × List PgnD)),
      processGroups ((pgn_number, [j]) :: rest) = processGroups rest := by
  have h1 : _json_to_message j = Except.ok none := by
    simp [_json_to_message, hiso]
  refine ⟨h1, fun n rest => ?_⟩
  cases hr : processGroups rest with
  | ok ms => simp [processGroups, h1, hr, except_bind_ok]
  | error e => simp [processGroups, h1, hr, except_bind_ok, except_bind_error]

/-- C8 counterexample: the two-variant group `[isoA, isoB]`, all of whose
definitions carry `Type` `"ISO"`, is NOT skipped: the multiplex merge never
consults the `Type` tag for the ISO value and produces a message. -/
theorem iso_variant_group_produces_message :
    isoA.Type' = some "ISO" ∧ isoB.Type' = some "ISO" ∧
    producesMessage (_variants_to_multiplexed_message 61184 [isoA, isoB]) = true := by
  decide

/-- C8 witness: the amended statement applied to the concrete ISO
definition `sampleIso`. -/
theorem iso_single_skipped_witness :
    _json_to_message sampleIso = Except.ok none ∧
    processGroups [(59904, [sampleIso])] = processGroups [] :=
  ⟨(iso_single_skipped sampleIso (by decide)).1,
   (iso_single_skipped sampleIso (by decide)).2 59904 []⟩

/-- C9: the conversion engine is a pure function of the parsed input: two
runs on the same input produce the same messages, the produced messages do
not depend on the wall-clock date string, and only the `Database` version
string carries the date. -/
theorem conversion_deterministic :
    ∀ (input : List PgnD) (t1 t2 : String),
      messages input = messages input ∧
      (get_database input t1).map Database.messages =
        (get_database input t2).map Database.messages ∧
      (get_database input t1).map Database.version =
        (messages input).map (fun _ => "Canboat export " ++ t1) := by
  intro input t1 t2
  refine ⟨rfl, ?_, ?_⟩ <;>
    cases h : messages input <;>
      simp [get_database, h, Except.map, except_bind_ok, except_bind_error]

end Canboat

namespace Canboat

theorem mkField_ok (fd : FieldD) (r : Finset String)
    (h : fd.Resolution.isSome → fd.Signed ≠ none) :
    mkField fd r = Except.ok (mkFieldPure fd (get_unique_id fd.Id r).1,
      (get_unique_id fd.Id r).2) := by
  by_cases hres : fd.Resolution.isSome
  · obtain ⟨b, hb⟩ := Option.ne_none_iff_exists'.mp (h hres)
    simp [mkField, mkFieldPure, hres, hb, except_bind_ok]
  · simp [mkField, mkFieldPure, hres, except_bind_ok]

theorem variantFieldsToSignals_ok (m : Int) (mux : String) :
    ∀ (fields : List FieldD) (r : Finset String),
      (∀ fd ∈ fields, fd.Resolution.isSome → fd.Signed ≠ none) →
      ∃ sigs r', variantFieldsToSignals m mux fields r = Except.ok (sigs, r') ∧
        sigs.length = fields.length ∧
        ∀ s ∈ sigs, s.is_multiplexer = false ∧ s.multiplexer_ids = some [m] ∧
          s.multiplexer_signal = some mux ∧
          ∃ suffix, s.name = "m" ++ intStr m ++ "_" ++ suffix := by
  intro fields
  induction fields with
  | nil =>
    intro r _
    exact ⟨[], r, rfl, rfl, fun s hs => absurd hs (List.not_mem_nil s)⟩
  | cons fd rest ih =>
    intro r hall
    have hmk := mkField_ok fd r (hall fd (List.mem_cons_self fd rest))
    obtain ⟨sigs, r', hrec, hlen, hprop⟩ :=
      ih (get_unique_id fd.Id r).2 (fun f hf => hall f (List.mem_cons_of_mem fd hf))
    refine ⟨_field_to_signal
        { mkFieldPure fd (get_unique_id fd.Id r).1 with
          id := "m" ++ intStr m ++ "_" ++ (get_unique_id fd.Id r).1,
          multiplexer_ids := some [m] } (some mux) :: sigs, r', ?_, ?_, ?_⟩
    · simp only [variantFieldsToSignals, hmk, except_bind_ok, hrec]
      rfl
    · simp [hlen]
    · intro s hs
      rcases List.mem_cons.mp hs with rfl | hs2
      · exact ⟨rfl, rfl, rfl, (get_unique_id fd.Id r).1, rfl⟩
      · exact hprop s hs2

theorem validate_two_variants (v0 v1 : PgnD) (f0 f1 : FieldD)
    (rest0 rest1 : List FieldD) (m0 m1 : Int)
    (h0 : v0.Fields = f0 :: rest0) (h1 : v1.Fields = f1 :: rest1)
    (hm0 : f0.Match = some m0) (hm1 : f1.Match = some m1) (hmne : m0 ≠ m1)
    (hid : f0.Id = f1.Id) (hbo : f0.BitOffset = f1.BitOffset)
    (hbl : f0.BitLength = f1.BitLength) :
    _validate_multiplex_field [v0, v1] = Except.ok true := by
  have hmne' : ¬ (m1 = m0) := fun h => hmne h.symm
  simp [_validate_multiplex_field, collectIgnored, firstField, h0, h1, hm0, hm1,
    checkVariants, hid, hbo, hbl, hmne', except_bind_ok]

/-- C1: merging a two-variant group of single-frame definitions whose first
fields carry distinct `Match` values and identical `Id`, `BitOffset` and
`BitLength` produces exactly one multiplexed message with exactly one
multiplexer signal; that signal's choice map sends each `Match` value to the
owning variant's `Id`; every other signal is tagged with exactly its
variant's `Match` value, references the multiplexer signal, and has its id
prefixed with `m<MatchValue>_`.  (The schema coupling of §6 — `Signed`
present whenever `Resolution` is — is assumed, as `Field.__init__` reads
`Signed` whenever `Resolution` is present.) -/
theorem two_variant_multiplexed_merge (pgn_number : Nat) (v0 v1 : PgnD)
    (f0 f1 : FieldD) (rest0 rest1 : List FieldD) (m0 m1 : Int) (t0 t1 : String)
    (h0 : v0.Fields = f0 :: rest0) (h1 : v1.Fields = f1 :: rest1)
    (hm0 : f0.Match = some m0) (hm1 : f1.Match = some m1) (hmne : m0 ≠ m1)
    (hid : f0.Id = f1.Id) (hbo : f0.BitOffset = f1.BitOffset)
    (hbl : f0.BitLength = f1.BitLength)
    (hl0 : v0.Length < 8) (hl1 : v1.Length < 8)
    (ht0 : v0.Type' = some t0) (ht0f : t0 ≠ "Fast")
    (ht1 : v1.Type' = some t1) (ht1f : t1 ≠ "Fast")
    (hsig : ∀ fd ∈ f0 :: (rest0 ++ rest1), fd.Resolution.isSome → fd.Signed ≠ none) :
    ∃ (msg : Message) (mux : Signal) (tail0 tail1 : List Signal),
      _variants_to_multiplexed_message pgn_number [v0, v1] = Except.ok (some msg) ∧
      msg.signals = mux :: (tail0 ++ tail1) ∧
      mux.is_multiplexer = true ∧
      mux.name = f0.Id ∧
      mux.choices = some [(m0, v0.Id), (m1, v1.Id)] ∧
      (msg.signals.filter (fun s => s.is_multiplexer)).length = 1 ∧
      tail0.length = rest0.length ∧ tail1.length = rest1.length ∧
      (∀ s ∈ tail0, s.is_multiplexer = false ∧ s.multiplexer_ids = some [m0] ∧
        s.multiplexer_signal = some mux.name ∧
        ∃ suffix, s.name = "m" ++ intStr m0 ++ "_" ++ suffix) ∧
      (∀ s ∈ tail1, s.is_multiplexer = false ∧ s.multiplexer_ids = some [m1] ∧
        s.multiplexer_signal = some mux.name ∧
        ∃ suffix, s.name = "m" ++ intStr m1 ++ "_" ++ suffix) := by
  have hval := validate_two_variants v0 v1 f0 f1 rest0 rest1 m0 m1
    h0 h1 hm0 hm1 hmne hid hbo hbl
  have hfv : filterValid [v0, v1] = Except.ok [v0, v1] := by
    simp [filterValid, hl0, hl1, ht0, ht1, ht0f, ht1f, except_bind_ok]
  have hgu : get_unique_id f0.Id ∅ = (f0.Id, {f0.Id}) := by
    simp [get_unique_id]
  have hmk0 : mkField f0 ∅ = Except.ok (mkFieldPure f0 f0.Id, {f0.Id}) := by
    have := mkField_ok f0 ∅ (hsig f0 (List.mem_cons_self _ _))
    rw [hgu] at this
    exact this
  have hpairs : choicePairs [v0, v1] = Except.ok [(m0, v0.Id), (m1, v1.Id)] := by
    simp [choicePairs, firstField, h0, h1, hm0, hm1, except_bind_ok]
  have hchoices : pyDictOfList [(m0, v0.Id), (m1, v1.Id)] = [(m0, v0.Id), (m1, v1.Id)] := by
    simp [pyDictOfList, pyDictInsert, beq_eq_false_iff_ne.mpr hmne]
  obtain ⟨sigs0, rA, heq0, hlen0, hprop0⟩ :=
    variantFieldsToSignals_ok m0 f0.Id rest0 {f0.Id}
      (fun fd hf => hsig fd (List.mem_cons_of_mem f0 (List.mem_append_left rest1 hf)))
  obtain ⟨sigs1, rB, heq1, hlen1, hprop1⟩ :=
    variantFieldsToSignals_ok m1 f0.Id rest1 rA
      (fun fd hf => hsig fd (List.mem_cons_of_mem f0 (List.mem_append_right rest0 hf)))
  have hvts : variantsToSignals f0.Id [v0, v1] {f0.Id} =
      Except.ok (sigs0 ++ sigs1, rB) := by
    simp [variantsToSignals, _get_variant_signals, h0, h1, hm0, hm1, heq0, heq1,
      except_bind_ok]
  have hfilter : (sigs0 ++ sigs1).filter (fun s => s.is_multiplexer) = [] := by
    rw [List.filter_eq_nil_iff]
    intro s hs
    rcases List.mem_append.mp hs with hs0 | hs1
    · rw [(hprop0 s hs0).1]; simp
    · rw [(hprop1 s hs1).1]; simp
  have hmx : (List.map (fun v => v.Length) [v0, v1]).maximum? =
      some (max v0.Length v1.Length) := rfl
  refine ⟨_pgn_to_message pgn_number ("PGN_" ++ natStr pgn_number ++ "_multiplexed")
      "Multiplexed message" (max v0.Length v1.Length)
      (_field_to_signal { mkFieldPure f0 f0.Id with
          enum_values := some [(m0, v0.Id), (m1, v1.Id)], multiplexer := true } none
        :: (sigs0 ++ sigs1)),
    _field_to_signal { mkFieldPure f0 f0.Id with
        enum_values := some [(m0, v0.Id), (m1, v1.Id)], multiplexer := true } none,
    sigs0, sigs1, ?_, rfl, rfl, rfl, rfl, ?_, hlen0, hlen1, ?_, ?_⟩
  · simp [_variants_to_multiplexed_message, hval, hmx, hfv, firstField, h0,
      hmk0, hpairs, hchoices, hvts, mkFieldPure, _field_to_signal, _pgn_to_message,
      except_bind_ok]
  · show (List.filter (fun s => s.is_multiplexer) (_ :: (sigs0 ++ sigs1))).length = 1
    rw [List.filter_cons_of_pos (by rfl), hfilter]
    rfl
  · intro s hs
    obtain ⟨ha, hb, hc, suffix, hd⟩ := hprop0 s hs
    exact ⟨ha, hb, hc, suffix, hd⟩
  · intro s hs
    obtain ⟨ha, hb, hc, suffix, hd⟩ := hprop1 s hs
    exact ⟨ha, hb, hc, suffix, hd⟩

end Canboat

namespace Canboat

/-- C1 witness: the two-variant merge statement applied to the concrete
group `[muxA, muxB]` (discriminator `industryCode`, `Match` values 0 and 1,
one payload field per variant). -/
theorem two_variant_multiplexed_merge_witness :
    (0 : Int) ≠ 1 ∧ muxA.Length < 8 ∧
    ∃ (msg : Message) (mux : Signal) (tail0 tail1 : List Signal),
      _variants_to_multiplexed_message 65283 [muxA, muxB] = Except.ok (some msg) ∧
      msg.signals = mux :: (tail0 ++ tail1) ∧
      mux.is_multiplexer = true ∧
      mux.name = (discField 0).Id ∧
      mux.choices = some [(0, muxA.Id), (1, muxB.Id)] ∧
      (msg.signals.filter (fun s => s.is_multiplexer)).length = 1 ∧
      tail0.length = [payloadA].length ∧ tail1.length = [payloadB].length ∧
      (∀ s ∈ tail0, s.is_multiplexer = false ∧ s.multiplexer_ids = some [0] ∧
        s.multiplexer_signal = some mux.name ∧
        ∃ suffix, s.name = "m" ++ intStr 0 ++ "_" ++ suffix) ∧
      (∀ s ∈ tail1, s.is_multiplexer = false ∧ s.multiplexer_ids = some [1] ∧
        s.multiplexer_signal = some mux.name ∧
        ∃ suffix, s.name = "m" ++ intStr 1 ++ "_" ++ suffix) :=
  ⟨by decide, by decide,
   two_variant_multiplexed_merge 65283 muxA muxB (discField 0) (discField 1)
     [payloadA] [payloadB] 0 1 "Single" "Single"
     rfl rfl rfl rfl (by decide) rfl rfl rfl
     (by decide) (by decide) rfl (by decide) rfl (by decide) (by decide)⟩

end Canboat
